import Mathlib

/-!
Verification of the ECG waveform pipeline of `ecg/ecg.py`: decoding the raw
sample buffer, calibrating each channel, band-pass filtering, and mapping a
grid layout onto sample windows and placement offsets.

The Python 2 code is shallowly embedded: byte buffers are lists of naturals,
16-bit samples are integers, floating point arithmetic is modelled over the
rationals, and fallible operations return `Except`.  Python 2 integer `/` is
`Nat` floor division; Python `round` rounds halves away from zero.
-/

/-- Error taxonomy of the specification: `formatError` covers the failed
assertions, the `struct.unpack` / `reshape` size mismatches and the
unknown-unit `KeyError`; `configError` covers the layout failures
(`IndexError` for an out-of-range signal index, `ZeroDivisionError` on an
empty row). -/
inductive EcgError where
  | formatError (msg : String)
  | configError (msg : String)
deriving DecidableEq

/-- Value of a little-endian signed 16-bit sample with low byte `lo` and high
byte `hi` (one `h` item of `struct.unpack('<...h', ...)`). -/
def toSigned16 (lo hi : ℕ) : ℤ :=
  let u := (lo + 256 * hi) % 65536
  if u < 32768 then (u : ℤ) else (u : ℤ) - 65536

/-- `struct.unpack('<' + str(len(data)/2) + 'h', data)`: the byte buffer read
two bytes at a time as little-endian signed 16-bit integers. -/
def unpackLE16 : List ℕ → List ℤ
  | lo :: hi :: rest => toSigned16 lo hi :: unpackLE16 rest
  | _ => []

/-- One element of `ChannelDefinitionSequence`, restricted to the attributes
the pipeline reads.  `none` models an absent attribute; a present numeric
attribute is modelled by its rational value (the code reads it through
`float(...)`).  Under `if definition.get(...)` a present falsy value (`0`,
an empty string) behaves exactly like an absent one; an empty string is
mapped to `none` accordingly, a present zero to `some 0`. -/
structure ChannelDef where
  waveformBitsStored : ℕ
  channelSensitivity : Option ℚ
  channelSensitivityCorrectionFactor : Option ℚ
  channelBaseline : Option ℚ
  unit : String
deriving DecidableEq

/-- The fields of `WaveformSequence[0]` read by `ECG.__init__`:
`WaveformSampleInterpretation`, `WaveformBitsAllocated`,
`ChannelDefinitionSequence`, `WaveformData` (raw bytes),
`NumberOfWaveformChannels` and `NumberOfWaveformSamples`. -/
structure SequenceItem where
  waveformSampleInterpretation : String
  waveformBitsAllocated : ℕ
  channelDefinitions : List ChannelDef
  waveformData : List ℕ
  channelsNo : ℕ
  samples : ℕ
deriving DecidableEq

/-- `np.asarray(..., dtype=np.float32).reshape(samples, channels).transpose()`
(ecg.py lines 133-136): with numpy's row-major semantics, entry `(i, t)` of
the transposed matrix is flat element `t * channels + i`.  The `float32` cast
is exact on the 16-bit sample range. -/
def reshapeTranspose (channels samples : ℕ) (flat : List ℤ) : List (List ℚ) :=
  (List.range channels).map fun i =>
    (List.range samples).map fun t => ((flat.getD (t * channels + i) 0 : ℤ) : ℚ)

/-- The validation effect of the `for idx in range(channels_no)` loop of
`ECG._signals`: `assert(definition.WaveformBitsStored == 16)` for every
channel index; an index past the end of the definition list is the loop's
`IndexError` (a malformed container). -/
def checkBitsStored (defs : List ChannelDef) : ℕ → Except EcgError Unit
  | 0 => Except.ok ()
  | n + 1 =>
    match checkBitsStored defs n with
    | Except.error e => Except.error e
    | Except.ok () =>
      match defs[n]? with
      | none => Except.error (EcgError.formatError "IndexError: missing channel definition")
      | some d =>
        if d.waveformBitsStored = 16 then Except.ok ()
        else Except.error (EcgError.formatError "assert WaveformBitsStored == 16")

/-- Decoder stage: the `ECG.__init__` assertions
(`WaveformSampleInterpretation == 'SS'`, `WaveformBitsAllocated == 16`), the
per-channel `WaveformBitsStored` assertion, and the
`struct.unpack` / `reshape` / `transpose` of lines 133-136.  `struct.unpack`
demands an even byte count and `reshape` demands `len/2 = samples*channels`. -/
def decodeContainer (item : SequenceItem) : Except EcgError (List (List ℚ)) :=
  if item.waveformSampleInterpretation ≠ "SS" then
    Except.error (EcgError.formatError "assert WaveformSampleInterpretation == SS")
  else if item.waveformBitsAllocated ≠ 16 then
    Except.error (EcgError.formatError "assert WaveformBitsAllocated == 16")
  else
    match checkBitsStored item.channelDefinitions item.channelsNo with
    | Except.error e => Except.error e
    | Except.ok () =>
      if item.waveformData.length % 2 ≠ 0 then
        Except.error (EcgError.formatError "struct.error: odd byte count")
      else if (unpackLE16 item.waveformData).length ≠ item.samples * item.channelsNo then
        Except.error (EcgError.formatError "ValueError: cannot reshape")
      else
        Except.ok (reshapeTranspose item.channelsNo item.samples (unpackLE16 item.waveformData))

theorem unpackLE16_length : ∀ l : List ℕ, (unpackLE16 l).length = l.length / 2
  | [] => rfl
  | [_] => by simp [unpackLE16]
  | _ :: _ :: rest => by
    have ih := unpackLE16_length rest
    simp only [unpackLE16, List.length_cons, ih]
    omega

theorem unpackLE16_getD : ∀ (l : List ℕ) (j : ℕ), 2 * j + 1 < l.length →
    (unpackLE16 l).getD j 0 = toSigned16 (l.getD (2 * j) 0) (l.getD (2 * j + 1) 0)
  | [], j, h => by simp at h
  | [_], j, h => by simp at h
  | lo :: hi :: rest, 0, _ => rfl
  | lo :: hi :: rest, j + 1, h => by
    have hr : 2 * j + 1 < rest.length := by
      simp only [List.length_cons] at h; omega
    have ih := unpackLE16_getD rest j hr
    have e2 : 2 * (j + 1) = 2 * j + 1 + 1 := by ring
    simp only [unpackLE16, List.getD_cons_succ, e2, ih]

theorem reshapeTranspose_length (channels samples : ℕ) (flat : List ℤ) :
    (reshapeTranspose channels samples flat).length = channels := by
  simp [reshapeTranspose]

theorem reshapeTranspose_getD (channels samples : ℕ) (flat : List ℤ)
    (i : ℕ) (hi : i < channels) :
    (reshapeTranspose channels samples flat).getD i [] =
      (List.range samples).map fun t => ((flat.getD (t * channels + i) 0 : ℤ) : ℚ) := by
  have hlen : i < (reshapeTranspose channels samples flat).length := by
    simpa [reshapeTranspose] using hi
  rw [List.getD_eq_getElem _ _ hlen]
  simp [reshapeTranspose]

theorem checkBitsStored_succ (defs : List ChannelDef) (n : ℕ) :
    checkBitsStored defs (n + 1) = Except.ok () ↔
      (checkBitsStored defs n = Except.ok () ∧
        ∃ d, defs[n]? = some d ∧ d.waveformBitsStored = 16) := by
  cases hprev : checkBitsStored defs n with
  | error e => simp [checkBitsStored, hprev]
  | ok u =>
    cases u
    cases hd : defs[n]? with
    | none => simp [checkBitsStored, hprev, hd]
    | some d =>
      by_cases hb : d.waveformBitsStored = 16 <;>
        simp [checkBitsStored, hprev, hd, hb]

theorem checkBitsStored_ok_iff (defs : List ChannelDef) (n : ℕ) :
    checkBitsStored defs n = Except.ok () ↔
      ∀ i, i < n → ∃ d, defs[i]? = some d ∧ d.waveformBitsStored = 16 := by
  induction n with
  | zero => simp [checkBitsStored]
  | succ n ih =>
    rw [checkBitsStored_succ, ih]
    constructor
    · rintro ⟨h1, h2⟩ i hi
      rcases Nat.lt_succ_iff_lt_or_eq.mp hi with h | h
      · exact h1 i h
      · exact h ▸ h2
    · intro h
      exact ⟨fun i hi => h i (Nat.lt_succ_of_lt hi), h n (Nat.lt_succ_self n)⟩

theorem checkBitsStored_error_format (defs : List ChannelDef) :
    ∀ n e, checkBitsStored defs n = Except.error e → ∃ msg, e = EcgError.formatError msg := by
  intro n
  induction n with
  | zero => intro e h; simp [checkBitsStored] at h
  | succ n ih =>
    intro e h
    rcases hprev : checkBitsStored defs n with e' | u
    · rw [checkBitsStored, hprev] at h
      exact ih e' (by cases h; exact hprev) |>.imp fun msg hm => by
        cases h; exact hm
    · cases u
      rw [checkBitsStored, hprev] at h
      cases hd : defs[n]? with
      | none => rw [hd] at h; cases h; exact ⟨_, rfl⟩
      | some d =>
        rw [hd] at h
        by_cases hb : d.waveformBitsStored = 16
        · simp [hb] at h
        · simp [hb] at h; cases h; exact ⟨_, rfl⟩

theorem checkBitsStored_full_iff (defs : List ChannelDef) :
    checkBitsStored defs defs.length = Except.ok () ↔
      ∀ d ∈ defs, d.waveformBitsStored = 16 := by
  rw [checkBitsStored_ok_iff]
  constructor
  · intro h d hd
    obtain ⟨i, hi⟩ := List.mem_iff_getElem?.mp hd
    have hilt : i < defs.length := (List.getElem?_eq_some.mp hi).1
    obtain ⟨d', hd', hb⟩ := h i hilt
    rw [hi] at hd'
    cases hd'
    exact hb
  · intro h i hi
    exact ⟨defs[i], List.getElem?_eq_getElem hi, h _ (List.getElem_mem hi)⟩

/-- Decoder success on a structurally valid container, with the decoded
matrix made explicit. -/
theorem decodeContainer_ok (item : SequenceItem)
    (h1 : item.waveformSampleInterpretation = "SS")
    (h2 : item.waveformBitsAllocated = 16)
    (h3 : item.channelDefinitions.length = item.channelsNo)
    (h4 : ∀ d ∈ item.channelDefinitions, d.waveformBitsStored = 16)
    (h5 : item.waveformData.length = 2 * item.channelsNo * item.samples) :
    decodeContainer item =
      Except.ok (reshapeTranspose item.channelsNo item.samples
        (unpackLE16 item.waveformData)) := by
  have hX : item.waveformData.length = 2 * (item.channelsNo * item.samples) := by
    rw [h5]; ring
  have hcheck : checkBitsStored item.channelDefinitions item.channelsNo = Except.ok () := by
    rw [← h3, checkBitsStored_full_iff]
    exact h4
  have heven : item.waveformData.length % 2 = 0 := by omega
  have hcount : (unpackLE16 item.waveformData).length = item.samples * item.channelsNo := by
    rw [unpackLE16_length, hX, Nat.mul_comm item.samples item.channelsNo]
    omega
  simp [decodeContainer, h1, h2, hcheck, heven, hcount]

theorem decodeContainer_error_format (item : SequenceItem) :
    ∀ e, decodeContainer item = Except.error e → ∃ msg, e = EcgError.formatError msg := by
  intro e h
  rw [decodeContainer] at h
  split at h
  · cases h; exact ⟨_, rfl⟩
  · split at h
    · cases h; exact ⟨_, rfl⟩
    · split at h
      · rename_i e' heq
        cases h
        exact checkBitsStored_error_format _ _ _ heq
      · split at h
        · cases h; exact ⟨_, rfl⟩
        · split at h
          · cases h; exact ⟨_, rfl⟩
          · exact absurd h (by simp)

/-- Claim C9: the decoder fails (with a `FormatError`) exactly when
`bitsAllocated` is not 16, some channel's `bitsStored` is not 16, the sample
interpretation is not signed 16-bit (`'SS'`), or the byte length differs from
`2 * channelCount * sampleCount`; on every container passing all four checks
it succeeds.  The hypothesis is the data-model invariant of one channel
definition per channel. -/
theorem spec_C9_decoder_failure (item : SequenceItem)
    (hdefs : item.channelDefinitions.length = item.channelsNo) :
    ((∃ M, decodeContainer item = Except.ok M) ↔
      (item.waveformSampleInterpretation = "SS" ∧
       item.waveformBitsAllocated = 16 ∧
       (∀ d ∈ item.channelDefinitions, d.waveformBitsStored = 16) ∧
       item.waveformData.length = 2 * item.channelsNo * item.samples)) ∧
    ∀ e, decodeContainer item = Except.error e → ∃ msg, e = EcgError.formatError msg := by
  refine ⟨⟨?_, ?_⟩, decodeContainer_error_format item⟩
  · rintro ⟨M, hM⟩
    rw [decodeContainer] at hM
    split at hM
    · cases hM
    · split at hM
      · cases hM
      · rename_i hss hba
        split at hM
        · cases hM
        · rename_i heq
          split at hM
          · cases hM
          · split at hM
            · cases hM
            · rename_i heven hcount
              refine ⟨by simpa using hss, by simpa using hba, ?_, ?_⟩
              · rw [← checkBitsStored_full_iff, hdefs]
                exact heq
              · rw [unpackLE16_length] at hcount
                have h5' : item.waveformData.length =
                    2 * (item.channelsNo * item.samples) := by
                  have hc : item.waveformData.length / 2 =
                      item.samples * item.channelsNo := by omega
                  have := Nat.mul_comm item.samples item.channelsNo
                  omega
                rw [h5']; ring
  · rintro ⟨h1, h2, h4, h5⟩
    exact ⟨_, decodeContainer_ok item h1 h2 hdefs h4 h5⟩

theorem spec_C9_decoder_failure_witness :
    ∃ M, decodeContainer
      ⟨"SS", 16, [⟨16, none, none, none, "mV"⟩], [5, 0], 1, 1⟩ = Except.ok M :=
  ((spec_C9_decoder_failure ⟨"SS", 16, [⟨16, none, none, none, "mV"⟩], [5, 0], 1, 1⟩
      rfl).1).mpr ⟨rfl, rfl, by decide, rfl⟩

/-- Claim C1: on a structurally valid container the decoder unpacks the byte
buffer as little-endian signed 16-bit integers in channel-interleaved order
and returns `channelCount` sequences of length `sampleCount` holding the raw
integer values (no calibration): channel `i`, sample `t` comes from bytes
`2*(t*channelCount + i)` and `2*(t*channelCount + i) + 1`. -/
theorem spec_C1_decode_interleaved (item : SequenceItem)
    (h1 : item.waveformSampleInterpretation = "SS")
    (h2 : item.waveformBitsAllocated = 16)
    (h3 : item.channelDefinitions.length = item.channelsNo)
    (h4 : ∀ d ∈ item.channelDefinitions, d.waveformBitsStored = 16)
    (h5 : item.waveformData.length = 2 * item.channelsNo * item.samples) :
    ∃ M, decodeContainer item = Except.ok M ∧ M.length = item.channelsNo ∧
      ∀ i, i < item.channelsNo →
        (M.getD i []).length = item.samples ∧
        ∀ t, t < item.samples →
          (M.getD i []).getD t 0 =
            ((toSigned16 (item.waveformData.getD (2 * (t * item.channelsNo + i)) 0)
              (item.waveformData.getD (2 * (t * item.channelsNo + i) + 1) 0) : ℤ) : ℚ) := by
  refine ⟨_, decodeContainer_ok item h1 h2 h3 h4 h5,
    reshapeTranspose_length _ _ _, ?_⟩
  intro i hi
  rw [reshapeTranspose_getD _ _ _ i hi]
  refine ⟨by simp, ?_⟩
  intro t ht
  have hlen2 : t < ((List.range item.samples).map
      (fun t => (((unpackLE16 item.waveformData).getD (t * item.channelsNo + i) 0 : ℤ) : ℚ))).length := by
    simpa using ht
  rw [List.getD_eq_getElem _ _ hlen2]
  simp only [List.getElem_map, List.getElem_range]
  have h5' : item.waveformData.length = 2 * (item.channelsNo * item.samples) := by
    rw [h5]; ring
  have hb1 : t * item.channelsNo + i < item.channelsNo * item.samples := by
    calc t * item.channelsNo + i < (t + 1) * item.channelsNo := by
          rw [Nat.succ_mul]; omega
      _ ≤ item.samples * item.channelsNo :=
          Nat.mul_le_mul_right _ (Nat.succ_le_of_lt ht)
      _ = item.channelsNo * item.samples := Nat.mul_comm _ _
  rw [unpackLE16_getD _ _ (by omega)]

theorem spec_C1_decode_interleaved_witness :
    ∃ M, decodeContainer
      ⟨"SS", 16, [⟨16, none, none, none, "mV"⟩, ⟨16, none, none, none, "mV"⟩],
        [0, 128, 255, 127, 1, 0, 2, 0], 2, 2⟩ = Except.ok M ∧ M.length = 2 := by
  obtain ⟨M, hM, hlen, _⟩ := spec_C1_decode_interleaved
    ⟨"SS", 16, [⟨16, none, none, none, "mV"⟩, ⟨16, none, none, none, "mV"⟩],
      [0, 128, 255, 127, 1, 0, 2, 0], 2, 2⟩ rfl rfl rfl (by decide) rfl
  exact ⟨M, hM, hlen⟩

/-- The `factor[idx]` computation of `ECG._signals` (lines 123-126): `factor`
starts at `1` and is overwritten by
`ChannelSensitivity * ChannelSensitivityCorrectionFactor` only when
`definition.get('ChannelSensitivity')` is truthy; reading the correction
factor of a definition that lacks it is the code's `AttributeError` (ruled
out by the data-model invariant that the two attributes are present or
absent together). -/
def channelFactor (d : ChannelDef) : Except EcgError ℚ :=
  match d.channelSensitivity with
  | none => Except.ok 1
  | some s =>
    if s = 0 then Except.ok 1
    else
      match d.channelSensitivityCorrectionFactor with
      | none => Except.error
          (EcgError.formatError "AttributeError: ChannelSensitivityCorrectionFactor")
      | some c => Except.ok (s * c)

/-- The `baseln[idx]` computation (lines 127-128): starts at `0`, overwritten
only when `definition.get('ChannelBaseline')` is truthy. -/
def channelBaseline (d : ChannelDef) : ℚ :=
  match d.channelBaseline with
  | none => 0
  | some b => if b = 0 then 0 else b

/-- Lines 138-141:
`signals[channel] = (signals[channel] + baseln[channel]) * factor[channel]`,
element-wise on one channel. -/
def calibrateChannel (factor baseline : ℚ) (xs : List ℚ) : List ℚ :=
  xs.map fun v => (v + baseline) * factor

/-- Calibration formula exactly as claim C2 words it:
`(raw + baseline) * sensitivity * correctionFactor`, with `baseline`
defaulting to 0 and the two factors defaulting to 1 when absent.  Declared
for comparison against the code's `channelFactor` / `calibrateChannel`. -/
def specCalibrated (d : ChannelDef) (v : ℚ) : ℚ :=
  (v + d.channelBaseline.getD 0) * d.channelSensitivity.getD 1 *
    d.channelSensitivityCorrectionFactor.getD 1

/-- Claim C2 as stated is false: a channel whose `ChannelSensitivity` is
present and equal to `0` is treated as absent (`0` is falsy), so the code
calibrates raw `5` to `5`, not to `(5+0)*0*1 = 0` as the claimed formula
demands. -/
theorem spec_C2_calibration_cex :
    channelFactor ⟨16, some 0, some 1, none, "mV"⟩ = Except.ok 1 ∧
    calibrateChannel 1 (channelBaseline ⟨16, some 0, some 1, none, "mV"⟩) [5] = [5] ∧
    specCalibrated ⟨16, some 0, some 1, none, "mV"⟩ 5 = 0 ∧
    (5 : ℚ) ≠ 0 := by
  refine ⟨rfl, ?_, ?_, by norm_num⟩
  · simp [calibrateChannel, channelBaseline]
  · simp [specCalibrated]

/-- Claim C2, amended: the calibrated value is
`(raw + baseline) * sensitivity * correctionFactor` element-wise, where
`baseline` defaults to 0 when absent, and a falsy sensitivity (absent or
zero) makes the combined gain 1 (both factors treated as defaulting to 1
together); with `baseline = 10`, `sensitivity = 2`, `correctionFactor = 1`,
raw `5` calibrates to `30`. -/
theorem spec_C2_calibration_amended (d : ChannelDef)
    (hinv : d.channelSensitivity.isSome ↔ d.channelSensitivityCorrectionFactor.isSome) :
    ∃ f, channelFactor d = Except.ok f ∧
      f = (match d.channelSensitivity with
           | none => 1
           | some s => if s = 0 then 1 else s * d.channelSensitivityCorrectionFactor.getD 1) ∧
      channelBaseline d = d.channelBaseline.getD 0 ∧
      (∀ xs, calibrateChannel f (channelBaseline d) xs =
        xs.map fun v => (v + d.channelBaseline.getD 0) * f) := by
  have hbase : channelBaseline d = d.channelBaseline.getD 0 := by
    rcases d with ⟨bs, s, c, b, u⟩
    rcases b with _ | b
    · rfl
    · by_cases hb : b = 0 <;> simp [channelBaseline, hb]
  rcases hs : d.channelSensitivity with _ | s
  · refine ⟨1, ?_, by simp [hs], hbase, fun xs => by simp [calibrateChannel, hbase]⟩
    rw [channelFactor, hs]
  · by_cases hz : s = 0
    · refine ⟨1, ?_, by simp [hs, hz], hbase, fun xs => by simp [calibrateChannel, hbase]⟩
      rw [channelFactor, hs]
      simp [hz]
    · have hc : d.channelSensitivityCorrectionFactor.isSome := by
        rw [← hinv, hs]; rfl
      rcases hcs : d.channelSensitivityCorrectionFactor with _ | c
      · rw [hcs] at hc; cases hc
      · refine ⟨s * c, ?_, by simp [hs, hcs, hz], hbase,
          fun xs => by simp [calibrateChannel, hbase]⟩
        rw [channelFactor, hs, hcs]
        simp [hz]

theorem spec_C2_calibration_amended_witness :
    ∃ f, channelFactor ⟨16, some 2, some 1, some 10, "mV"⟩ = Except.ok f ∧
      calibrateChannel f (channelBaseline ⟨16, some 2, some 1, some 10, "mV"⟩) [5] = [30] := by
  obtain ⟨f, h1, h2, h3, h4⟩ :=
    spec_C2_calibration_amended ⟨16, some 2, some 1, some 10, "mV"⟩ (by simp)
  refine ⟨f, h1, ?_⟩
  rw [h4 [5]]
  simp at h2
  rw [h2]
  norm_num

/-- Claim C10: a falsy `ChannelSensitivity` (zero, or absent — the model for
any falsy attribute value) yields unity combined gain: the correction factor
is not consulted and no channel is zeroed out (calibration degenerates to
adding the baseline). -/
theorem spec_C10_falsy_sensitivity :
    (∀ bs cf b u, channelFactor ⟨bs, some 0, cf, b, u⟩ = Except.ok 1) ∧
    (∀ bs cf b u, channelFactor ⟨bs, none, cf, b, u⟩ = Except.ok 1) ∧
    (∀ bs cf cf' b u,
      channelFactor ⟨bs, some 0, cf, b, u⟩ = channelFactor ⟨bs, some 0, cf', b, u⟩) ∧
    (∀ bl xs, calibrateChannel 1 bl xs = xs.map fun v => v + bl) := by
  refine ⟨fun bs cf b u => by simp [channelFactor],
    fun bs cf b u => rfl,
    fun bs cf cf' b u => by simp [channelFactor],
    fun bl xs => by simp [calibrateChannel]⟩

/-- One output sample of `scipy.signal.lfilter(num, denom, x)`, the causal
direct-form IIR recursion of its documentation:
`a[0]*y[n] = sum_k b[k]*x[n-k] - sum_(k >= 1) a[k]*y[n-k]`, where `ys` holds
the already-computed outputs `y[0..n-1]`. -/
def lfilterNext (b a x ys : List ℚ) (n : ℕ) : ℚ :=
  ((∑ k ∈ Finset.range b.length, if k ≤ n then b.getD k 0 * x.getD (n - k) 0 else 0) -
    (∑ k ∈ Finset.range a.length, if 1 ≤ k ∧ k ≤ n then a.getD k 0 * ys.getD (n - k) 0 else 0)) /
    a.getD 0 0

/-- The first `n` output samples of the recursion. -/
def lfilterStep (b a x : List ℚ) : ℕ → List ℚ
  | 0 => []
  | n + 1 =>
    let ys := lfilterStep b a x n
    ys ++ [lfilterNext b a x ys n]

/-- `scipy.signal.lfilter(b, a, x)`: causal IIR filtering, one output sample
per input sample. -/
def lfilter (b a x : List ℚ) : List ℚ := lfilterStep b a x x.length

/-- `butter_bandpass` (ecg.py lines 22-27), with the scipy Butterworth design
`butter(order, [low, high], btype='band')` abstracted as the parameter `bt`:
the cutoffs are normalized to fractions of the Nyquist frequency
(`0.5 * size`) before the design is invoked. -/
def butter_bandpass (bt : ℕ → ℚ → ℚ → List ℚ × List ℚ)
    (lowcut highcut size : ℚ) (order : ℕ) : List ℚ × List ℚ :=
  let nyquist_freq := 1 / 2 * size
  let low := lowcut / nyquist_freq
  let high := highcut / nyquist_freq
  bt order low high

/-- `butter_bandpass_filter` (lines 30-32). -/
def butter_bandpass_filter (bt : ℕ → ℚ → ℚ → List ℚ × List ℚ)
    (data : List ℚ) (lowcut highcut size : ℚ) (order : ℕ) : List ℚ :=
  let nd := butter_bandpass bt lowcut highcut size order
  lfilter nd.1 nd.2 data

/-- The `millivolts` conversion table of line 147. -/
def millivolts (unit : String) : Option ℚ :=
  if unit = "uV" then some 1000 else if unit = "mV" then some 1 else none

/-- Lines 149-152: each calibrated channel is filtered with `low = .05`,
`high = 40.0`, `size = 1000`, `order = 1` and divided by the unit's
conversion factor; an unrecognized unit is the dict lookup's `KeyError`
(spec taxonomy: `FormatError`). -/
def channelOutput (bt : ℕ → ℚ → ℚ → List ℚ × List ℚ)
    (cal : List ℚ) (unit : String) : Except EcgError (List ℚ) :=
  match millivolts unit with
  | none => Except.error (EcgError.formatError "KeyError: unknown unit")
  | some m =>
      Except.ok ((butter_bandpass_filter bt cal 0.05 40.0 1000 1).map fun v => v / m)

/-- The per-channel tail of `ECG._signals`: each channel is calibrated with
its own factor and baseline, filtered and unit-normalized, independently of
the other channels. -/
def signalsFrom (bt : ℕ → ℚ → ℚ → List ℚ × List ℚ) (defs : List ChannelDef)
    (raw : List (List ℚ)) : List ℕ → Except EcgError (List (List ℚ))
  | [] => Except.ok []
  | i :: is =>
    match defs[i]? with
    | none => Except.error (EcgError.formatError "IndexError: missing channel definition")
    | some d =>
      match channelFactor d with
      | Except.error e => Except.error e
      | Except.ok f =>
        match channelOutput bt (calibrateChannel f (channelBaseline d) (raw.getD i [])) d.unit with
        | Except.error e => Except.error e
        | Except.ok out =>
          match signalsFrom bt defs raw is with
          | Except.error e => Except.error e
          | Except.ok rest => Except.ok (out :: rest)

/-- `ECG._signals` end to end: decode, then per channel calibrate, filter and
normalize. -/
def ECGsignals (bt : ℕ → ℚ → ℚ → List ℚ × List ℚ) (item : SequenceItem) :
    Except EcgError (List (List ℚ)) :=
  match decodeContainer item with
  | Except.error e => Except.error e
  | Except.ok raw => signalsFrom bt item.channelDefinitions raw (List.range item.channelsNo)

theorem lfilterStep_length (b a x : List ℚ) : ∀ n, (lfilterStep b a x n).length = n
  | 0 => rfl
  | n + 1 => by simp [lfilterStep, lfilterStep_length b a x n]

theorem lfilter_length (b a x : List ℚ) : (lfilter b a x).length = x.length :=
  lfilterStep_length b a x x.length

theorem lfilterStep_getD (b a x : List ℚ) :
    ∀ m n, n < m →
      (lfilterStep b a x m).getD n 0 = lfilterNext b a x (lfilterStep b a x n) n := by
  intro m
  induction m with
  | zero => intro n h; omega
  | succ m ih =>
    intro n h
    by_cases hn : n < m
    · rw [lfilterStep]
      rw [List.getD_append _ _ _ _ (by rw [lfilterStep_length]; exact hn)]
      exact ih n hn
    · have hnm : n = m := by omega
      subst hnm
      rw [lfilterStep]
      have hlen : (lfilterStep b a x n).length = n := lfilterStep_length b a x n
      rw [List.getD_eq_getElem _ _ (by simp [hlen])]
      rw [List.getElem_append_right (by omega)]
      simp [hlen]

/-- Claim C8: the band-pass filter is designed with the defaults
`low = 0.05`, `high = 40.0`, `order = 1`, `size = 1000`, the cutoffs handed
to the Butterworth design divided by the Nyquist frequency `0.5 * size`; it
is applied as the causal direct-form IIR recursion independently to each
calibrated channel (then unit-normalized), producing one output sample per
input sample. -/
theorem spec_C8_filter_design :
    (∀ (bt : ℕ → ℚ → ℚ → List ℚ × List ℚ) lowcut highcut size order,
      butter_bandpass bt lowcut highcut size order =
        bt order (lowcut / (1 / 2 * size)) (highcut / (1 / 2 * size))) ∧
    (∀ (bt : ℕ → ℚ → ℚ → List ℚ × List ℚ) cal u m, millivolts u = some m →
      channelOutput bt cal u = Except.ok
        ((lfilter (bt 1 (0.05 / (1 / 2 * 1000)) (40.0 / (1 / 2 * 1000))).1
            (bt 1 (0.05 / (1 / 2 * 1000)) (40.0 / (1 / 2 * 1000))).2 cal).map
          fun v => v / m)) ∧
    (∀ b a x, (lfilter b a x).length = x.length) ∧
    (∀ b a x n, n < x.length →
      (lfilter b a x).getD n 0 = lfilterNext b a x (lfilterStep b a x n) n) ∧
    (∀ (bt : ℕ → ℚ → ℚ → List ℚ × List ℚ) defs raw i d is f,
      defs[i]? = some d → channelFactor d = Except.ok f →
      signalsFrom bt defs raw (i :: is) =
        match channelOutput bt
            (calibrateChannel f (channelBaseline d) (raw.getD i [])) d.unit with
        | Except.error e => Except.error e
        | Except.ok out =>
          match signalsFrom bt defs raw is with
          | Except.error e => Except.error e
          | Except.ok rest => Except.ok (out :: rest)) := by
  refine ⟨fun bt lowcut highcut size order => rfl, ?_, lfilter_length, ?_, ?_⟩
  · intro bt cal u m hm
    rw [channelOutput, hm]
    rfl
  · intro b a x n h
    exact lfilterStep_getD b a x x.length n h
  · intro bt defs raw i d is f hd hf
    rw [signalsFrom, hd]
    dsimp only
    rw [hf]

theorem spec_C8_filter_design_witness :
    channelOutput (fun _ _ _ => ([1], [1])) [2, 3] "mV" = Except.ok
      ((lfilter [1] [1] [2, 3]).map fun v => v / 1) :=
  spec_C8_filter_design.2.1 (fun _ _ _ => ([1], [1])) [2, 3] "mV" 1 rfl

/-- Claim C3: the final per-channel signal is the filtered calibrated signal
divided by `1000.0` when the unit is microvolt (`'uV'`) and by `1.0` when it
is millivolt (`'mV'`); a channel differing only in unit therefore comes out
exactly 1/1000 as large, and any other unit is a lookup failure
(`FormatError`). -/
theorem spec_C3_unit_normalization :
    (∀ (bt : ℕ → ℚ → ℚ → List ℚ × List ℚ) cal,
      channelOutput bt cal "uV" = Except.ok
        ((butter_bandpass_filter bt cal 0.05 40.0 1000 1).map fun v => v / 1000)) ∧
    (∀ (bt : ℕ → ℚ → ℚ → List ℚ × List ℚ) cal,
      channelOutput bt cal "mV" = Except.ok
        ((butter_bandpass_filter bt cal 0.05 40.0 1000 1).map fun v => v / 1)) ∧
    (∀ (bt : ℕ → ℚ → ℚ → List ℚ × List ℚ) cal out_uv out_mv,
      channelOutput bt cal "uV" = Except.ok out_uv →
      channelOutput bt cal "mV" = Except.ok out_mv →
      out_uv = out_mv.map fun v => v / 1000) ∧
    (∀ u, u ≠ "uV" → u ≠ "mV" → ∀ (bt : ℕ → ℚ → ℚ → List ℚ × List ℚ) cal,
      channelOutput bt cal u =
        Except.error (EcgError.formatError "KeyError: unknown unit")) := by
  have huv : ∀ (bt : ℕ → ℚ → ℚ → List ℚ × List ℚ) cal,
      channelOutput bt cal "uV" = Except.ok
        ((butter_bandpass_filter bt cal 0.05 40.0 1000 1).map fun v => v / 1000) := by
    intro bt cal
    rfl
  have hmv : ∀ (bt : ℕ → ℚ → ℚ → List ℚ × List ℚ) cal,
      channelOutput bt cal "mV" = Except.ok
        ((butter_bandpass_filter bt cal 0.05 40.0 1000 1).map fun v => v / 1) := by
    intro bt cal
    rfl
  refine ⟨huv, hmv, ?_, ?_⟩
  · intro bt cal out_uv out_mv h1 h2
    rw [huv] at h1
    rw [hmv] at h2
    cases h1
    cases h2
    simp [List.map_map, Function.comp_def]
  · intro u hu1 hu2 bt cal
    rw [channelOutput, millivolts, if_neg hu1, if_neg hu2]

theorem spec_C3_unit_normalization_witness :
    channelOutput (fun _ _ _ => ([1], [1])) [7] "furlong" =
      Except.error (EcgError.formatError "KeyError: unknown unit") :=
  spec_C3_unit_normalization.2.2.2 "furlong" (by decide) (by decide)
    (fun _ _ _ => ([1], [1])) [7]

/-- Python 2 `round`: nearest integer (as a float), halves away from zero. -/
def pyRound (x : ℚ) : ℚ := if 0 ≤ x then (⌊x + 1 / 2⌋ : ℚ) else (⌈x - 1 / 2⌉ : ℚ)

/-- Python float `%` (sign follows the modulus; used here only with `5`). -/
def pyMod (x y : ℚ) : ℚ := x - y * (⌊x / y⌋ : ℚ)

/-- The argument of `round` on lines 254-255:
`self.height * (1 - 1.0/(rows*2)) - numrow * (self.height/rows)` with
`height = 170.0`. -/
def rawCenter (rows numrow : ℕ) : ℚ :=
  170 * (1 - 1 / ((rows : ℚ) * 2)) - (numrow : ℚ) * (170 / (rows : ℚ))

/-- Lines 254-257: the vertical offset of a row — the rounded raw center,
then `v_delta = (v_delta + 2.5) - (v_delta + 2.5) % 5`. -/
def v_delta (rows numrow : ℕ) : ℚ :=
  let v := pyRound (rawCenter rows numrow)
  (v + 5 / 2) - pyMod (v + 5 / 2) 5

/-- Line 258: `chunk_size = int(self.samples/len(row))` — Python 2 integer
division, i.e. `Nat` floor division. -/
def chunk_size (samples columns : ℕ) : ℕ := samples / columns

/-- Line 251: `h_delta = self.samples / columns` — both operands are Python 2
ints, so this too is floor division. -/
def h_delta (samples columns : ℕ) : ℕ := samples / columns

/-- Horizontal offset exactly as claim C5 words it: `(sampleCount / C_r) * c`
with exact (rational) division.  Declared for comparison with the code's
`h_delta * numcol`. -/
def specHOffset (samples cols c : ℕ) : ℚ := (samples : ℚ) / (cols : ℚ) * (c : ℚ)

/-- The computed layout artifact for one grid cell (spec §3 LayoutCell):
indices, half-open sample window, and placement offsets. -/
structure LayoutCell where
  rowIndex : ℕ
  colIndex : ℕ
  channelIndex : ℕ
  windowLeft : ℕ
  windowRight : ℕ
  horizontalOffset : ℕ
  verticalOffset : ℚ
deriving DecidableEq, Inhabited

/-- The inner `for numcol, signum in enumerate(row)` loop of `ECG.plot`
(lines 260-275): `self.signals[signum]` follows numpy indexing, so
`-channels <= signum < channels` selects a channel (negative indices wrap)
and anything else raises `IndexError`; cells produced before a failure have
already been emitted (plotted). -/
def processCells (channels samples rows numrow cols : ℕ) :
    ℕ → List ℤ → List LayoutCell × Option EcgError
  | _, [] => ([], none)
  | numcol, signum :: rest =>
    if -(channels : ℤ) ≤ signum ∧ signum < (channels : ℤ) then
      ({ rowIndex := numrow
         colIndex := numcol
         channelIndex := (if signum < 0 then signum + (channels : ℤ) else signum).toNat
         windowLeft := numcol * chunk_size samples cols
         windowRight := (1 + numcol) * chunk_size samples cols
         horizontalOffset := h_delta samples cols * numcol
         verticalOffset := v_delta rows numrow } ::
           (processCells channels samples rows numrow cols (numcol + 1) rest).1,
       (processCells channels samples rows numrow cols (numcol + 1) rest).2)
    else
      ([], some (EcgError.configError "IndexError: signal index out of range"))

/-- The outer `for numrow, row in enumerate(layout)` loop of `ECG.plot`:
`h_delta = self.samples / columns` raises `ZeroDivisionError` on an empty
row; rows handled before a failure stay emitted. -/
def processRows (channels samples rows : ℕ) :
    ℕ → List (List ℤ) → List LayoutCell × Option EcgError
  | _, [] => ([], none)
  | numrow, row :: rest =>
    if row.length = 0 then ([], some (EcgError.configError "ZeroDivisionError"))
    else
      match (processCells channels samples rows numrow row.length 0 row).2 with
      | some e => ((processCells channels samples rows numrow row.length 0 row).1, some e)
      | none =>
        ((processCells channels samples rows numrow row.length 0 row).1 ++
           (processRows channels samples rows (numrow + 1) rest).1,
         (processRows channels samples rows (numrow + 1) rest).2)

/-- Layout engine of `ECG.plot` (lines 244-281): the LayoutCells in emission
order, together with the error that aborted the traversal, if any.  Legend
and label text are presentation concerns outside the layout mapping. -/
def plotCells (channels samples : ℕ) (layout : List (List ℤ)) :
    List LayoutCell × Option EcgError :=
  processRows channels samples layout.length 0 layout

theorem floor_half_snap (x : ℚ) :
    ⌊(((⌊x + 1 / 2⌋ : ℤ) : ℚ) + 5 / 2) / 5⌋ = ⌊(x + 5 / 2) / 5⌋ := by
  have key : ∀ z : ℤ, z ≤ ⌊(((⌊x + 1 / 2⌋ : ℤ) : ℚ) + 5 / 2) / 5⌋ ↔
      z ≤ ⌊(x + 5 / 2) / 5⌋ := by
    intro z
    rw [Int.le_floor, Int.le_floor, le_div_iff (by norm_num : (0 : ℚ) < 5),
        le_div_iff (by norm_num : (0 : ℚ) < 5)]
    constructor
    · intro h
      have h2 : ((z : ℚ) * 5) < ((⌊x + 1 / 2⌋ : ℤ) : ℚ) + 3 := by linarith
      have h3 : (z * 5 : ℤ) < ⌊x + 1 / 2⌋ + 3 := by exact_mod_cast h2
      have h4 : (z * 5 - 2 : ℤ) ≤ ⌊x + 1 / 2⌋ := by omega
      have h5 : ((z * 5 - 2 : ℤ) : ℚ) ≤ ((⌊x + 1 / 2⌋ : ℤ) : ℚ) := by exact_mod_cast h4
      have h6 := Int.floor_le (x + 1 / 2)
      push_cast at h5
      linarith
    · intro h
      have h2 : ((z * 5 - 2 : ℤ) : ℚ) ≤ x + 1 / 2 := by push_cast; linarith
      have h3 : (z * 5 - 2 : ℤ) ≤ ⌊x + 1 / 2⌋ := Int.le_floor.mpr h2
      have h4 : ((z * 5 - 2 : ℤ) : ℚ) ≤ ((⌊x + 1 / 2⌋ : ℤ) : ℚ) := by exact_mod_cast h3
      push_cast at h4
      linarith
  exact le_antisymm ((key _).mp le_rfl) ((key _).mpr le_rfl)

theorem rawCenter_nonneg (rows numrow : ℕ) (h : numrow < rows) :
    0 ≤ rawCenter rows numrow := by
  have hR0 : (0 : ℚ) < (rows : ℚ) := by
    have hp : 0 < rows := by omega
    exact_mod_cast hp
  have hr1 : (numrow : ℚ) + 1 ≤ (rows : ℚ) := by exact_mod_cast h
  have e : rawCenter rows numrow =
      85 * (2 * (rows : ℚ) - 1 - 2 * (numrow : ℚ)) / (rows : ℚ) := by
    rw [rawCenter]
    field_simp
    ring
  rw [e]
  apply div_nonneg _ (le_of_lt hR0)
  nlinarith

/-- The vertical offset in closed form: the raw band center, half-quantum
biased and snapped down to a multiple of 5 — which is snapping to the nearest
multiple of 5 (ties up); the intermediate Python `round` does not change the
snapped value. -/
theorem v_delta_eq (rows numrow : ℕ) (h : numrow < rows) :
    v_delta rows numrow = 5 * ((⌊(rawCenter rows numrow + 5 / 2) / 5⌋ : ℤ) : ℚ) := by
  have hsnap : v_delta rows numrow =
      5 * ((⌊(pyRound (rawCenter rows numrow) + 5 / 2) / 5⌋ : ℤ) : ℚ) := by
    rw [v_delta, pyMod]
    ring
  rw [hsnap, pyRound, if_pos (rawCenter_nonneg rows numrow h), floor_half_snap]

theorem rawCenter_antitone (rows : ℕ) (r r' : ℕ) (hle : r ≤ r') :
    rawCenter rows r' ≤ rawCenter rows r := by
  rw [rawCenter, rawCenter]
  have h1 : (r : ℚ) ≤ (r' : ℚ) := by exact_mod_cast hle
  have h2 : (0 : ℚ) ≤ 170 / (rows : ℚ) := by positivity
  nlinarith

/-- Claim C6: the vertical offset of row `r` is the raw center
`H*(1 - 1/(2R)) - r*(H/R)` (with `H = 170`) snapped to a multiple of 5 by the
`+2.5`-bias rule; offsets are monotonically decreasing (non-increasing) in
the row index, and any two rows' offsets differ by a multiple of 5. -/
theorem spec_C6_vertical_offset (R r r' : ℕ) (hR : 2 ≤ R)
    (hr : r < R) (hr' : r' < R) (hle : r ≤ r') :
    v_delta R r = 5 * ((⌊(rawCenter R r + 5 / 2) / 5⌋ : ℤ) : ℚ) ∧
    v_delta R r' ≤ v_delta R r ∧
    ∃ k : ℤ, v_delta R r - v_delta R r' = 5 * (k : ℚ) := by
  have e1 := v_delta_eq R r hr
  have e2 := v_delta_eq R r' hr'
  refine ⟨e1, ?_, ?_⟩
  · rw [e1, e2]
    have hfl : ⌊(rawCenter R r' + 5 / 2) / 5⌋ ≤ ⌊(rawCenter R r + 5 / 2) / 5⌋ := by
      apply Int.floor_le_floor
      have := rawCenter_antitone R r r' hle
      apply (div_le_div_right (by norm_num : (0 : ℚ) < 5)).mpr
      linarith
    have : ((⌊(rawCenter R r' + 5 / 2) / 5⌋ : ℤ) : ℚ) ≤
        ((⌊(rawCenter R r + 5 / 2) / 5⌋ : ℤ) : ℚ) := by exact_mod_cast hfl
    linarith
  · refine ⟨⌊(rawCenter R r + 5 / 2) / 5⌋ - ⌊(rawCenter R r' + 5 / 2) / 5⌋, ?_⟩
    rw [e1, e2]
    push_cast
    ring

theorem spec_C6_vertical_offset_witness :
    v_delta 3 0 = 5 * ((⌊(rawCenter 3 0 + 5 / 2) / 5⌋ : ℤ) : ℚ) ∧
    v_delta 3 2 ≤ v_delta 3 0 ∧
    ∃ k : ℤ, v_delta 3 0 - v_delta 3 2 = 5 * (k : ℚ) :=
  spec_C6_vertical_offset 3 0 2 (by norm_num) (by norm_num) (by norm_num) (by norm_num)

theorem processCells_mem (channels samples rows numrow cols : ℕ) :
    ∀ (numcol : ℕ) (row : List ℤ) (cell : LayoutCell),
      cell ∈ (processCells channels samples rows numrow cols numcol row).1 →
      ∃ k, ∃ hk : k < row.length,
        cell = { rowIndex := numrow
                 colIndex := numcol + k
                 channelIndex := (if row.get ⟨k, hk⟩ < 0 then
                     row.get ⟨k, hk⟩ + (channels : ℤ) else row.get ⟨k, hk⟩).toNat
                 windowLeft := (numcol + k) * chunk_size samples cols
                 windowRight := (1 + (numcol + k)) * chunk_size samples cols
                 horizontalOffset := h_delta samples cols * (numcol + k)
                 verticalOffset := v_delta rows numrow } := by
  intro numcol row
  induction row generalizing numcol with
  | nil => intro cell h; simp [processCells] at h
  | cons signum rest ih =>
    intro cell h
    rw [processCells] at h
    split at h
    · rcases List.mem_cons.mp h with h0 | h1
      · refine ⟨0, by simp, ?_⟩
        simpa using h0
      · obtain ⟨k, hk, hcell⟩ := ih (numcol + 1) cell h1
        refine ⟨k + 1, by simpa using hk, ?_⟩
        have e1 : numcol + 1 + k = numcol + (k + 1) := by omega
        simpa [e1] using hcell
    · simp at h

theorem processRows_mem (channels samples rows : ℕ) :
    ∀ (numrow : ℕ) (ls : List (List ℤ)) (cell : LayoutCell),
      cell ∈ (processRows channels samples rows numrow ls).1 →
      ∃ k, ∃ hk : k < ls.length,
        cell ∈ (processCells channels samples rows (numrow + k)
          (ls.get ⟨k, hk⟩).length 0 (ls.get ⟨k, hk⟩)).1 := by
  intro numrow ls
  induction ls generalizing numrow with
  | nil => intro cell h; simp [processRows] at h
  | cons row rest ih =>
    intro cell h
    rw [processRows] at h
    split at h
    · simp at h
    · split at h
      · refine ⟨0, by simp, ?_⟩
        simpa using h
      · rcases List.mem_append.mp (by simpa using h) with h0 | h1
        · refine ⟨0, by simp, ?_⟩
          simpa using h0
        · obtain ⟨k, hk, hc⟩ := ih (numrow + 1) cell h1
          refine ⟨k + 1, by simpa using hk, ?_⟩
          have e1 : numrow + 1 + k = numrow + (k + 1) := by omega
          simpa [e1] using hc

/-- Every emitted cell is fully characterized by its row and column index:
its fields are exactly the `ECG.plot` loop computations for the row it came
from. -/
theorem plotCells_mem (channels samples : ℕ) (layout : List (List ℤ))
    (cell : LayoutCell) (h : cell ∈ (plotCells channels samples layout).1) :
    ∃ hk : cell.rowIndex < layout.length,
      ∃ hj : cell.colIndex < (layout.get ⟨cell.rowIndex, hk⟩).length,
      cell.windowLeft =
        cell.colIndex * chunk_size samples (layout.get ⟨cell.rowIndex, hk⟩).length ∧
      cell.windowRight =
        (1 + cell.colIndex) * chunk_size samples (layout.get ⟨cell.rowIndex, hk⟩).length ∧
      cell.horizontalOffset =
        h_delta samples (layout.get ⟨cell.rowIndex, hk⟩).length * cell.colIndex ∧
      cell.verticalOffset = v_delta layout.length cell.rowIndex ∧
      cell.channelIndex =
        (if (layout.get ⟨cell.rowIndex, hk⟩).get ⟨cell.colIndex, hj⟩ < 0 then
            (layout.get ⟨cell.rowIndex, hk⟩).get ⟨cell.colIndex, hj⟩ + (channels : ℤ)
          else (layout.get ⟨cell.rowIndex, hk⟩).get ⟨cell.colIndex, hj⟩).toNat := by
  obtain ⟨k, hk, hc⟩ := processRows_mem channels samples layout.length 0 layout cell h
  obtain ⟨j, hj, hcell⟩ :=
    processCells_mem channels samples layout.length (0 + k)
      (layout.get ⟨k, hk⟩).length 0 (layout.get ⟨k, hk⟩) cell hc
  simp only [Nat.zero_add] at hcell
  subst hcell
  exact ⟨hk, hj, rfl, rfl, rfl, rfl, rfl⟩

/-- Claim C5 as stated is false: `h_delta = self.samples / columns` is Python 2
integer division, so with 10 samples and 3 columns the offset of column 1 is
`3`, not the exact quotient `10/3`; the offsets coincide with
`chunk_size * c` instead of being independent of the chunking rounding. -/
theorem spec_C5_horizontal_offset_cex :
    ((plotCells 2 10 [[0, 1, 0]]).1.getD 1 default).horizontalOffset = 3 ∧
    specHOffset 10 3 1 = 10 / 3 ∧
    (((((plotCells 2 10 [[0, 1, 0]]).1.getD 1 default).horizontalOffset : ℕ) : ℚ) ≠
      specHOffset 10 3 1) := by
  refine ⟨by decide, ?_, ?_⟩
  · norm_num [specHOffset]
  · have h1 : ((plotCells 2 10 [[0, 1, 0]]).1.getD 1 default).horizontalOffset = 3 := by decide
    rw [h1]
    norm_num [specHOffset]

/-- Claim C5, amended: the horizontal offset of cell `(row, c)` is
`floor(sampleCount / C_r) * c` (Python 2 floor division), i.e. exactly
`chunk_size * c` — evenly spaced by the chunk size, not by the exact real
quotient. -/
theorem spec_C5_horizontal_offset_amended (channels samples : ℕ)
    (layout : List (List ℤ)) (cell : LayoutCell)
    (hmem : cell ∈ (plotCells channels samples layout).1)
    (row : List ℤ) (hrow : layout[cell.rowIndex]? = some row) :
    cell.horizontalOffset = h_delta samples row.length * cell.colIndex ∧
    h_delta samples row.length = chunk_size samples row.length ∧
    cell.horizontalOffset = samples / row.length * cell.colIndex := by
  obtain ⟨hk, hj, hwl, hwr, hho, hvo, hci⟩ := plotCells_mem channels samples layout cell hmem
  have hg : layout.get ⟨cell.rowIndex, hk⟩ = row := by
    rw [List.getElem?_eq_getElem hk] at hrow
    injection hrow with hrow
  rw [hg] at hho
  exact ⟨hho, rfl, hho⟩

theorem spec_C5_horizontal_offset_amended_witness :
    ((plotCells 2 10 [[0, 1, 0]]).1.getD 2 default).horizontalOffset =
      h_delta 10 3 * ((plotCells 2 10 [[0, 1, 0]]).1.getD 2 default).colIndex := by
  have hlen : 2 < (plotCells 2 10 [[0, 1, 0]]).1.length := by decide
  have hmem : (plotCells 2 10 [[0, 1, 0]]).1.getD 2 default ∈
      (plotCells 2 10 [[0, 1, 0]]).1 := by
    rw [List.getD_eq_getElem _ _ hlen]
    exact List.getElem_mem hlen
  exact (spec_C5_horizontal_offset_amended 2 10 [[0, 1, 0]] _ hmem
    [0, 1, 0] (by decide)).1

/-- Claim C7 as stated is false in its remainder clause: with 10 samples and
7 columns the chunk size is 1, the windows consume 7 samples, and the
truncated remainder is 3, which is not strictly less than one chunk. -/
theorem spec_C7_chunk_partition_cex :
    chunk_size 10 7 = 1 ∧ 7 * chunk_size 10 7 ≤ 10 ∧
    ¬(10 - 7 * chunk_size 10 7 < chunk_size 10 7) := by
  decide

/-- Claim C7, amended: column `c` consumes the half-open window
`[c * chunk_size, (c+1) * chunk_size)` with
`chunk_size = floor(sampleCount / C_r)`; the windows tile
`[0, C_r * chunk_size)` without gaps or overlap, the consumed total is at
most `sampleCount`, and the truncated remainder is strictly less than the
column count `C_r` (it can reach or exceed one chunk when `C_r^2` exceeds
`sampleCount`). -/
theorem spec_C7_chunk_partition_amended (channels samples : ℕ)
    (layout : List (List ℤ)) (cell : LayoutCell)
    (hmem : cell ∈ (plotCells channels samples layout).1)
    (row : List ℤ) (hrow : layout[cell.rowIndex]? = some row) :
    cell.windowLeft = cell.colIndex * chunk_size samples row.length ∧
    cell.windowRight = (cell.colIndex + 1) * chunk_size samples row.length ∧
    row.length * chunk_size samples row.length ≤ samples ∧
    samples - row.length * chunk_size samples row.length < row.length ∧
    (∀ x, x < row.length * chunk_size samples row.length →
      ∃! c, c < row.length ∧ c * chunk_size samples row.length ≤ x ∧
        x < (c + 1) * chunk_size samples row.length) := by
  obtain ⟨hk, hj, hwl, hwr, hho, hvo, hci⟩ := plotCells_mem channels samples layout cell hmem
  have hg : layout.get ⟨cell.rowIndex, hk⟩ = row := by
    rw [List.getElem?_eq_getElem hk] at hrow
    injection hrow with hrow
  rw [hg] at hwl hwr hj
  have hpos : 0 < row.length := Nat.pos_of_ne_zero (by omega)
  have hdm := Nat.div_add_mod samples row.length
  have hmlt := Nat.mod_lt samples hpos
  refine ⟨hwl, by rw [hwr]; ring_nf, ?_, ?_, ?_⟩
  · simp only [chunk_size]
    calc row.length * (samples / row.length) = samples / row.length * row.length := by ring
      _ ≤ samples := Nat.div_mul_le_self samples row.length
  · simp only [chunk_size] at *
    generalize hq : samples / row.length = q at hdm ⊢
    generalize hr : samples % row.length = r at hdm hmlt
    generalize hB : row.length * q = B at hdm ⊢
    omega
  · intro x hx
    have hcs : 0 < chunk_size samples row.length := by
      rcases Nat.eq_zero_or_pos (chunk_size samples row.length) with h0 | h0
      · rw [h0] at hx; omega
      · exact h0
    refine ⟨x / chunk_size samples row.length, ⟨?_, ?_, ?_⟩, ?_⟩
    · rw [Nat.div_lt_iff_lt_mul hcs]
      exact hx
    · exact Nat.div_mul_le_self x _
    · have hdm2 := Nat.div_add_mod x (chunk_size samples row.length)
      have hmlt2 := Nat.mod_lt x hcs
      generalize hq2 : x / chunk_size samples row.length = q at hdm2 ⊢
      generalize hr2 : x % chunk_size samples row.length = r at hdm2 hmlt2
      have e1 : (q + 1) * chunk_size samples row.length =
          chunk_size samples row.length * q + chunk_size samples row.length := by ring
      rw [e1]
      omega
    · rintro c' ⟨hc1, hc2, hc3⟩
      apply le_antisymm
      · exact (Nat.le_div_iff_mul_le hcs).mpr hc2
      · have h4 : x / chunk_size samples row.length < c' + 1 := by
          rw [Nat.div_lt_iff_lt_mul hcs]
          exact hc3
        omega

theorem spec_C7_chunk_partition_amended_witness :
    ((plotCells 2 10 [[0, 1]]).1.getD 1 default).windowLeft =
      ((plotCells 2 10 [[0, 1]]).1.getD 1 default).colIndex * chunk_size 10 2 := by
  have hlen : 1 < (plotCells 2 10 [[0, 1]]).1.length := by decide
  have hmem : (plotCells 2 10 [[0, 1]]).1.getD 1 default ∈ (plotCells 2 10 [[0, 1]]).1 := by
    rw [List.getD_eq_getElem _ _ hlen]
    exact List.getElem_mem hlen
  exact (spec_C7_chunk_partition_amended 2 10 [[0, 1]] _ hmem [0, 1] (by decide)).1

theorem processCells_error_form (channels samples rows numrow cols : ℕ) :
    ∀ (numcol : ℕ) (row : List ℤ) (e : EcgError),
      (processCells channels samples rows numrow cols numcol row).2 = some e →
      e = EcgError.configError "IndexError: signal index out of range" := by
  intro numcol row
  induction row generalizing numcol with
  | nil => intro e h; simp [processCells] at h
  | cons signum rest ih =>
    intro e h
    rw [processCells] at h
    split at h
    · exact ih (numcol + 1) e h
    · injection h with h
      exact h.symm

theorem processCells_none (channels samples rows numrow cols : ℕ) :
    ∀ (numcol : ℕ) (row : List ℤ),
      (∀ i ∈ row, -(channels : ℤ) ≤ i ∧ i < (channels : ℤ)) →
      (processCells channels samples rows numrow cols numcol row).2 = none := by
  intro numcol row
  induction row generalizing numcol with
  | nil => intro _; rfl
  | cons signum rest ih =>
    intro hval
    rw [processCells, if_pos (hval signum (List.mem_cons_self _ _))]
    exact ih (numcol + 1) fun i hi => hval i (List.mem_cons_of_mem _ hi)

theorem processCells_some_of_bad (channels samples rows numrow cols : ℕ) :
    ∀ (numcol : ℕ) (row : List ℤ),
      (∃ i ∈ row, i < -(channels : ℤ) ∨ (channels : ℤ) ≤ i) →
      ∃ e, (processCells channels samples rows numrow cols numcol row).2 = some e := by
  intro numcol row
  induction row generalizing numcol with
  | nil => rintro ⟨i, hi, _⟩; simp at hi
  | cons signum rest ih =>
    rintro ⟨i, hi, hbad⟩
    by_cases hv : -(channels : ℤ) ≤ signum ∧ signum < (channels : ℤ)
    · rw [processCells, if_pos hv]
      have hir : i ∈ rest := by
        rcases List.mem_cons.mp hi with h0 | h1
        · subst h0; omega
        · exact h1
      exact ih (numcol + 1) ⟨i, hir, hbad⟩
    · rw [processCells, if_neg hv]
      exact ⟨_, rfl⟩

theorem processRows_error_form (channels samples rows : ℕ) :
    ∀ (numrow : ℕ) (ls : List (List ℤ)) (e : EcgError),
      (processRows channels samples rows numrow ls).2 = some e →
      ∃ msg, e = EcgError.configError msg := by
  intro numrow ls
  induction ls generalizing numrow with
  | nil => intro e h; simp [processRows] at h
  | cons row rest ih =>
    intro e h
    rw [processRows] at h
    split at h
    · injection h with h
      exact ⟨_, h.symm⟩
    · split at h
      · rename_i e' heq
        injection h with h
        exact ⟨_, h ▸ processCells_error_form channels samples rows numrow row.length 0 row e' heq⟩
      · exact ih (numrow + 1) e h

theorem processRows_none (channels samples rows : ℕ) :
    ∀ (numrow : ℕ) (ls : List (List ℤ)),
      (∀ row ∈ ls, row ≠ [] ∧ ∀ i ∈ row, -(channels : ℤ) ≤ i ∧ i < (channels : ℤ)) →
      (processRows channels samples rows numrow ls).2 = none := by
  intro numrow ls
  induction ls generalizing numrow with
  | nil => intro _; rfl
  | cons row rest ih =>
    intro hval
    obtain ⟨hne, hrow⟩ := hval row (List.mem_cons_self _ _)
    have hlen : ¬row.length = 0 := by
      simpa [List.length_eq_zero] using hne
    have hcur : (processCells channels samples rows numrow row.length 0 row).2 = none :=
      processCells_none channels samples rows numrow row.length 0 row hrow
    rw [processRows, if_neg hlen, hcur]
    exact ih (numrow + 1) fun r hr => hval r (List.mem_cons_of_mem _ hr)

theorem processRows_some_of_bad (channels samples rows : ℕ) :
    ∀ (numrow : ℕ) (ls : List (List ℤ)),
      (∃ row ∈ ls, row = [] ∨ ∃ i ∈ row, i < -(channels : ℤ) ∨ (channels : ℤ) ≤ i) →
      ∃ e, (processRows channels samples rows numrow ls).2 = some e := by
  intro numrow ls
  induction ls generalizing numrow with
  | nil => rintro ⟨row, hr, _⟩; simp at hr
  | cons row rest ih =>
    rintro ⟨badrow, hbr, hbad⟩
    by_cases hlen : row.length = 0
    · rw [processRows, if_pos hlen]
      exact ⟨_, rfl⟩
    · rw [processRows, if_neg hlen]
      cases hcur : (processCells channels samples rows numrow row.length 0 row).2 with
      | some e => exact ⟨e, rfl⟩
      | none =>
        show ∃ e, (processRows channels samples rows (numrow + 1) rest).2 = some e
        apply ih (numrow + 1)
        rcases List.mem_cons.mp hbr with h0 | h1
        · subst h0
          rcases hbad with hemp | ⟨i, hi, hib⟩
          · exact absurd (by simpa [List.length_eq_zero] using hemp) hlen
          · exfalso
            obtain ⟨e, he⟩ := processCells_some_of_bad channels samples rows numrow
              badrow.length 0 badrow ⟨i, hi, hib⟩
            rw [hcur] at he
            cases he
        · exact ⟨badrow, h1, hbad⟩

theorem processRows_append (channels samples rows : ℕ) :
    ∀ (numrow : ℕ) (L1 L2 : List (List ℤ)),
      (processRows channels samples rows numrow L1).2 = none →
      processRows channels samples rows numrow (L1 ++ L2) =
        ((processRows channels samples rows numrow L1).1 ++
          (processRows channels samples rows (numrow + L1.length) L2).1,
         (processRows channels samples rows (numrow + L1.length) L2).2) := by
  intro numrow L1
  induction L1 generalizing numrow with
  | nil =>
    intro L2 _
    simp [processRows]
  | cons row rest ih =>
    intro L2 h2
    by_cases hlen : row.length = 0
    · rw [processRows, if_pos hlen] at h2
      cases h2
    · cases hcur : (processCells channels samples rows numrow row.length 0 row).2 with
      | some e =>
        rw [processRows, if_neg hlen, hcur] at h2
        cases h2
      | none =>
        rw [processRows, if_neg hlen, hcur] at h2
        rw [List.cons_append, processRows, if_neg hlen, hcur,
            ih (numrow + 1) L2 h2, processRows, if_neg hlen, hcur]
        have e1 : numrow + 1 + rest.length = numrow + (row :: rest).length := by
          simp [List.length_cons]
          omega
        rw [e1, List.append_assoc]

/-- Claim C4 as stated is false: with 2 channels, the layout `[[-1]]`
contains a channel index outside `[0, channelCount)`, yet the engine raises
no error and emits a cell — numpy indexing wraps the negative index to
channel 1. -/
theorem spec_C4_layout_errors_cex :
    (plotCells 2 10 [[-1]]).2 = none ∧
    (plotCells 2 10 [[-1]]).1.length = 1 ∧
    ((plotCells 2 10 [[-1]]).1.getD 0 default).channelIndex = 1 := by
  decide

/-- Claim C4, amended: a channel index `>= channelCount` or `< -channelCount`,
or an empty row, yields a `ConfigurationError`; a negative index in
`[-channelCount, 0)` is accepted and wraps (numpy semantics) to a channel in
`[0, channelCount)`; and the traversal is incremental — cells of an
error-free prefix of the layout are emitted unchanged whatever follows. -/
theorem spec_C4_layout_errors_amended :
    (∀ (channels samples : ℕ) (layout : List (List ℤ)),
      (∃ row ∈ layout, row = [] ∨ ∃ i ∈ row, i < -(channels : ℤ) ∨ (channels : ℤ) ≤ i) →
      ∃ msg, (plotCells channels samples layout).2 = some (EcgError.configError msg)) ∧
    (∀ (channels samples : ℕ) (layout : List (List ℤ)),
      (∀ row ∈ layout, row ≠ [] ∧ ∀ i ∈ row, -(channels : ℤ) ≤ i ∧ i < (channels : ℤ)) →
      (plotCells channels samples layout).2 = none ∧
      ∀ cell ∈ (plotCells channels samples layout).1, cell.channelIndex < channels) ∧
    (∀ (channels samples rows numrow : ℕ) (L1 L2 : List (List ℤ)),
      (processRows channels samples rows numrow L1).2 = none →
      processRows channels samples rows numrow (L1 ++ L2) =
        ((processRows channels samples rows numrow L1).1 ++
          (processRows channels samples rows (numrow + L1.length) L2).1,
         (processRows channels samples rows (numrow + L1.length) L2).2)) := by
  refine ⟨?_, ?_, fun channels samples rows numrow L1 L2 h =>
    processRows_append channels samples rows numrow L1 L2 h⟩
  · intro channels samples layout hbad
    obtain ⟨e, he⟩ := processRows_some_of_bad channels samples layout.length 0 layout hbad
    obtain ⟨msg, hmsg⟩ := processRows_error_form channels samples layout.length 0 layout e he
    exact ⟨msg, by rw [plotCells, he, hmsg]⟩
  · intro channels samples layout hgood
    refine ⟨processRows_none channels samples layout.length 0 layout hgood, ?_⟩
    intro cell hcell
    obtain ⟨hk, hj, hwl, hwr, hho, hvo, hci⟩ :=
      plotCells_mem channels samples layout cell hcell
    have hrowmem : layout.get ⟨cell.rowIndex, hk⟩ ∈ layout := List.get_mem _ _ _
    have helemmem : (layout.get ⟨cell.rowIndex, hk⟩).get ⟨cell.colIndex, hj⟩ ∈
        layout.get ⟨cell.rowIndex, hk⟩ := List.get_mem _ _ _
    obtain ⟨hlo, hhi⟩ := (hgood _ hrowmem).2 _ helemmem
    rw [hci]
    by_cases hneg : (layout.get ⟨cell.rowIndex, hk⟩).get ⟨cell.colIndex, hj⟩ < 0
    · rw [if_pos hneg]
      omega
    · rw [if_neg hneg]
      omega

theorem spec_C4_layout_errors_amended_witness :
    (∃ msg, (plotCells 2 10 [[0], [2]]).2 = some (EcgError.configError msg)) ∧
    (plotCells 2 10 [[0], [1]]).2 = none := by
  constructor
  · exact spec_C4_layout_errors_amended.1 2 10 [[0], [2]] (by decide)
  · exact (spec_C4_layout_errors_amended.2.1 2 10 [[0], [1]] (by decide)).1
